import Mathlib

/-!
Verification of `quantuminspire/qiskit/qi_result.py` (class `QIResult`).

The file defines a shallow embedding of the two accessor methods
`get_probabilities` and `get_calibration` of `QIResult` and proves the
specification claims about them.

Modelling choices, faithful to the Python source:
* The result record of an experiment (`ExperimentResult`) carries a data mapping
  (a string-keyed association list, modelling the Python dict returned by
  `self.data(key)`) and the outcome of attempting to decode its header:
  `some h` when `exp.header.to_dict()` succeeds, `none` when it raises
  (`AttributeError` / `QiskitError`), which the source catches.
* The types of data values (`V`), decoded headers (`H`) and formatted
  outputs (`F`) are parameters, as is the framework routine
  `postprocess.format_counts`, modelled by an arbitrary function
  `fmt : V → Option H → F`; the source calls it but does not define it.
* Experiment identifiers are modelled as integer indices (`Nat`): the
  `experiment is None` branch iterates `range(len(self.results))`, and the
  base framework resolver `_get_experiment` maps an in-range index to the
  record at that position and raises `QiskitError` otherwise.
* Python exceptions become the `Except` monad; `QIErr` distinguishes the
  `QiskitBackendError` raised by the accessors themselves (with its exact
  message) from the `QiskitError` of the framework resolver (whose message
  lives outside this repository, so only the offending key is recorded).
-/

namespace QIRes

/-- One per-experiment result record: its data mapping (string key to value)
and the result of attempting to decode its header (`none` = decoding raised,
which the source catches). -/
structure ExperimentResult (V H : Type) where
  data : List (String × V)
  header : Option H
deriving Repr, DecidableEq

/-- The `QIResult` store: the ordered collection `self.results`. -/
structure QIResult (V H : Type) where
  results : List (ExperimentResult V H)
deriving Repr, DecidableEq

/-- Errors the accessors can raise: the backend-specific
`QiskitBackendError` with its message, or the `QiskitError` of the
framework resolver for an unresolvable key (recorded by the key; its
message is framework code outside this repository). -/
inductive QIErr where
  | qiskitBackendError (msg : String)
  | qiskitError (key : Nat)
deriving Repr, DecidableEq

/-- Dictionary lookup: `k in d.keys()` / `d[k]` on the data mapping. -/
def lookupData {V : Type} (d : List (String × V)) (k : String) : Option V :=
  (d.find? (fun p => p.1 == k)).map (fun p => p.2)

/-- The base framework method `self._get_experiment(key)` for an integer key:
the record at that index, or `QiskitError` when the index is out of range. -/
def getExperiment {V H : Type} (r : QIResult V H) (key : Nat) :
    Except QIErr (ExperimentResult V H) :=
  match r.results.get? key with
  | some e => Except.ok e
  | none => Except.error (QIErr.qiskitError key)

/-- The value an accessor returns: a single mapping or a list of mappings. -/
inductive AccessorOut (A : Type) where
  | single (d : A)
  | list (l : List A)
deriving Repr, DecidableEq

/-- The final collapse step shared by both accessors:
`return dict_list[0] if len(dict_list) == 1 else dict_list`. -/
def collapse {A : Type} (l : List A) : AccessorOut A :=
  match l with
  | [d] => AccessorOut.single d
  | _ => AccessorOut.list l

/-- The keys iterated by either accessor: `range(len(self.results))` when
`experiment is None`, else the singleton `[experiment]`. -/
def expKeys {V H : Type} (r : QIResult V H) (experiment : Option Nat) : List Nat :=
  match experiment with
  | none => List.range r.results.length
  | some k => [k]

/-- The message of the missing-probabilities error, the source format
string applied to the key. -/
def probMissingMsg (key : Nat) : String :=
  "No probabilities for experiment \"" ++ toString key ++ "\""

/-- The message of the missing-calibration error, the source format
string applied to the key. -/
def calMissingMsg (key : Nat) : String :=
  "No calibration data for experiment \"" ++ toString key ++ "\""

/-- The `for key in exp_keys` loop of `get_probabilities`: resolve the
experiment, take its (possibly failed) header decoding, look up
`"probabilities"` in its data mapping, format via `fmt` on success, raise
`QiskitBackendError` on a missing key. -/
def probLoop {V H F : Type} (fmt : V → Option H → F) (r : QIResult V H) :
    List Nat → Except QIErr (List F)
  | [] => Except.ok []
  | key :: ks =>
    match getExperiment r key with
    | Except.error e => Except.error e
    | Except.ok exp =>
      match lookupData exp.data "probabilities" with
      | some probabilities =>
        match probLoop fmt r ks with
        | Except.error e => Except.error e
        | Except.ok rest => Except.ok (fmt probabilities exp.header :: rest)
      | none => Except.error (QIErr.qiskitBackendError (probMissingMsg key))

/-- The method `QIResult.get_probabilities(experiment)`. -/
def get_probabilities {V H F : Type} (fmt : V → Option H → F) (r : QIResult V H)
    (experiment : Option Nat) : Except QIErr (AccessorOut F) :=
  match probLoop fmt r (expKeys r experiment) with
  | Except.error e => Except.error e
  | Except.ok dict_list => Except.ok (collapse dict_list)

/-- The `for key in exp_keys` loop of `get_calibration`: resolve the
experiment, look up `"calibration"` in its data mapping, append the stored
value unmodified, raise `QiskitBackendError` on a missing key. -/
def calLoop {V H : Type} (r : QIResult V H) : List Nat → Except QIErr (List V)
  | [] => Except.ok []
  | key :: ks =>
    match getExperiment r key with
    | Except.error e => Except.error e
    | Except.ok exp =>
      match lookupData exp.data "calibration" with
      | some calibration =>
        match calLoop r ks with
        | Except.error e => Except.error e
        | Except.ok rest => Except.ok (calibration :: rest)
      | none => Except.error (QIErr.qiskitBackendError (calMissingMsg key))

/-- The method `QIResult.get_calibration(experiment)`. -/
def get_calibration {V H : Type} (r : QIResult V H) (experiment : Option Nat) :
    Except QIErr (AccessorOut V) :=
  match calLoop r (expKeys r experiment) with
  | Except.error e => Except.error e
  | Except.ok dict_list => Except.ok (collapse dict_list)

/-- Observation helper: the success value of an `Except`, if any. -/
def okOf {E A : Type} : Except E A → Option A
  | Except.ok a => some a
  | Except.error _ => none

/-- Observation helper: the error value of an `Except`, if any. -/
def errOf {E A : Type} : Except E A → Option E
  | Except.ok _ => none
  | Except.error e => some e

/-- What `get_probabilities` is expected to contribute for one key:
the stored probabilities value of the resolved record, passed together with
its (possibly absent) decoded header through the framework formatting
routine `fmt`; `none` when the key does not resolve or the record has no
probabilities entry. Used only to state theorems. -/
def probAt {V H F : Type} (fmt : V → Option H → F) (r : QIResult V H) (k : Nat) : Option F :=
  (okOf (getExperiment r k)).bind
    (fun e => (lookupData e.data "probabilities").map (fun p => fmt p e.header))

/-- What `get_calibration` is expected to contribute for one key: the raw
stored calibration value of the resolved record, unmodified; `none` when
the key does not resolve or the record has no calibration entry. Used only
to state theorems. -/
def calAt {V H : Type} (r : QIResult V H) (k : Nat) : Option V :=
  (okOf (getExperiment r k)).bind (fun e => lookupData e.data "calibration")

/-- The same store with every header decoding failed: used to state that
header-decoding failures do not influence the error behaviour. -/
def stripHeaders {V H : Type} (r : QIResult V H) : QIResult V H :=
  QIResult.mk (r.results.map (fun e => ExperimentResult.mk e.data none))

/-- State-threading version of the `get_probabilities` loop: the store is
passed along explicitly so that the absence of writes is a theorem rather
than a convention. Every step reads from the store it receives and hands
the same store on, exactly as the source method only reads `self`. -/
def probLoopST {V H F : Type} (fmt : V → Option H → F) :
    QIResult V H → List Nat → QIResult V H × Except QIErr (List F)
  | r, [] => (r, Except.ok [])
  | r, key :: ks =>
    match getExperiment r key with
    | Except.error e => (r, Except.error e)
    | Except.ok exp =>
      match lookupData exp.data "probabilities" with
      | some probabilities =>
        match probLoopST fmt r ks with
        | (r2, Except.error e) => (r2, Except.error e)
        | (r2, Except.ok rest) => (r2, Except.ok (fmt probabilities exp.header :: rest))
      | none => (r, Except.error (QIErr.qiskitBackendError (probMissingMsg key)))

/-- State-threading version of `get_probabilities`. -/
def get_probabilitiesST {V H F : Type} (fmt : V → Option H → F) (r : QIResult V H)
    (experiment : Option Nat) : QIResult V H × Except QIErr (AccessorOut F) :=
  match probLoopST fmt r (expKeys r experiment) with
  | (r2, Except.error e) => (r2, Except.error e)
  | (r2, Except.ok dict_list) => (r2, Except.ok (collapse dict_list))

/-- State-threading version of the `get_calibration` loop. -/
def calLoopST {V H : Type} :
    QIResult V H → List Nat → QIResult V H × Except QIErr (List V)
  | r, [] => (r, Except.ok [])
  | r, key :: ks =>
    match getExperiment r key with
    | Except.error e => (r, Except.error e)
    | Except.ok exp =>
      match lookupData exp.data "calibration" with
      | some calibration =>
        match calLoopST r ks with
        | (r2, Except.error e) => (r2, Except.error e)
        | (r2, Except.ok rest) => (r2, Except.ok (calibration :: rest))
      | none => (r, Except.error (QIErr.qiskitBackendError (calMissingMsg key)))

/-- State-threading version of `get_calibration`. -/
def get_calibrationST {V H : Type} (r : QIResult V H) (experiment : Option Nat) :
    QIResult V H × Except QIErr (AccessorOut V) :=
  match calLoopST r (expKeys r experiment) with
  | (r2, Except.error e) => (r2, Except.error e)
  | (r2, Except.ok dict_list) => (r2, Except.ok (collapse dict_list))

/-- The first error the probabilities loop hits on a key list: the
resolver error of the first unresolvable key, or the missing-data error of
the first resolved record without a probabilities entry. Depends neither on
the formatting routine nor on any header. Used only to state theorems. -/
def firstProbError {V H : Type} (r : QIResult V H) : List Nat → Option QIErr
  | [] => none
  | key :: ks =>
    match getExperiment r key with
    | Except.error e => some e
    | Except.ok exp =>
      match lookupData exp.data "probabilities" with
      | some _ => firstProbError r ks
      | none => some (QIErr.qiskitBackendError (probMissingMsg key))

/-- A format function used to instantiate witnesses on concrete inputs. -/
def sampleFmt : Nat → Option Nat → Nat := fun v h => v + 100 * h.getD 0

/-- A concrete one-experiment store used by witnesses. -/
def store1 : QIResult Nat Nat :=
  QIResult.mk [ExperimentResult.mk [("probabilities", 1), ("calibration", 7)] none]

/-- A concrete two-experiment store used by witnesses: both experiments
carry probabilities and calibration entries. -/
def store2 : QIResult Nat Nat :=
  QIResult.mk
    [ExperimentResult.mk [("probabilities", 1), ("calibration", 7)] (some 3),
     ExperimentResult.mk [("probabilities", 2), ("calibration", 8)] none]

/-- A concrete two-experiment store whose second experiment lacks both the
probabilities and the calibration entry. -/
def store2bad : QIResult Nat Nat :=
  QIResult.mk
    [ExperimentResult.mk [("probabilities", 1), ("calibration", 7)] (some 3),
     ExperimentResult.mk [("other", 2)] none]

/-- The concrete empty store used by witnesses. -/
def store0 : QIResult Nat Nat := QIResult.mk []

/-- On success the probabilities loop returns one entry per key. -/
theorem probLoop_ok_length {V H F : Type} (fmt : V → Option H → F) (r : QIResult V H) :
    ∀ (ks : List Nat) (l : List F), probLoop fmt r ks = Except.ok l → l.length = ks.length := by
  intro ks
  induction ks with
  | nil => intro l h; simp only [probLoop] at h; cases h; rfl
  | cons key ks ih =>
    intro l h
    rw [probLoop] at h
    split at h
    · cases h
    · split at h
      · split at h
        · cases h
        next rest hrec =>
          cases h
          simp [ih rest hrec]
      · cases h

/-- On success the calibration loop returns one entry per key. -/
theorem calLoop_ok_length {V H : Type} (r : QIResult V H) :
    ∀ (ks : List Nat) (l : List V), calLoop r ks = Except.ok l → l.length = ks.length := by
  intro ks
  induction ks with
  | nil => intro l h; simp only [calLoop] at h; cases h; rfl
  | cons key ks ih =>
    intro l h
    rw [calLoop] at h
    split at h
    · cases h
    · split at h
      · split at h
        · cases h
        next rest hrec =>
          cases h
          simp [ih rest hrec]
      · cases h

/-- The function `collapse` yields a single mapping exactly for
one-element lists. -/
theorem collapse_single_iff {A : Type} (l : List A) :
    (∃ d, collapse l = AccessorOut.single d) ↔ l.length = 1 := by
  cases l with
  | nil => simp [collapse]
  | cons a t =>
    cases t with
    | nil => simp [collapse]
    | cons b t2 => simp [collapse]

/-- The function `collapse` keeps a non-singleton list as a list. -/
theorem collapse_ne_one {A : Type} (l : List A) (h : l.length ≠ 1) :
    collapse l = AccessorOut.list l := by
  cases l with
  | nil => rfl
  | cons a t =>
    cases t with
    | nil => simp at h
    | cons b t2 => rfl

/-- An in-range index resolves to the record at that position. -/
theorem getExperiment_lt {V H : Type} (r : QIResult V H) (k : Nat)
    (h : k < r.results.length) :
    getExperiment r k = Except.ok (r.results.get ⟨k, h⟩) := by
  unfold getExperiment
  rw [List.get?_eq_get h]

/-- On success, entry `i` of the probabilities loop output is the formatted
probabilities of key `i` of the key list. -/
theorem probLoop_ok_get {V H F : Type} (fmt : V → Option H → F) (r : QIResult V H) :
    ∀ (ks : List Nat) (l : List F), probLoop fmt r ks = Except.ok l →
      ∀ i : Nat, l.get? i = (ks.get? i).bind (probAt fmt r) := by
  intro ks
  induction ks with
  | nil =>
    intro l h i
    simp only [probLoop] at h
    cases h
    simp
  | cons key ks ih =>
    intro l h i
    rw [probLoop] at h
    split at h
    · cases h
    next exp hg =>
      split at h
      next p hl =>
        split at h
        · cases h
        next rest hrec =>
          cases h
          cases i with
          | zero => simp [probAt, hg, hl, okOf]
          | succ j =>
            simp only [List.get?]
            exact ih rest hrec j
      · cases h

/-- On success, entry `i` of the calibration loop output is the raw stored
calibration of key `i` of the key list. -/
theorem calLoop_ok_get {V H : Type} (r : QIResult V H) :
    ∀ (ks : List Nat) (l : List V), calLoop r ks = Except.ok l →
      ∀ i : Nat, l.get? i = (ks.get? i).bind (calAt r) := by
  intro ks
  induction ks with
  | nil =>
    intro l h i
    simp only [calLoop] at h
    cases h
    simp
  | cons key ks ih =>
    intro l h i
    rw [calLoop] at h
    split at h
    · cases h
    next exp hg =>
      split at h
      next c hl =>
        split at h
        · cases h
        next rest hrec =>
          cases h
          cases i with
          | zero => simp [calAt, hg, hl, okOf]
          | succ j =>
            simp only [List.get?]
            exact ih rest hrec j
      · cases h

/-- The probabilities loop succeeds when every key resolves to a record
with a probabilities entry. -/
theorem probLoop_ok_of_all {V H F : Type} (fmt : V → Option H → F) (r : QIResult V H) :
    ∀ (ks : List Nat), (∀ k ∈ ks, (probAt fmt r k).isSome) →
      ∃ l, probLoop fmt r ks = Except.ok l := by
  intro ks
  induction ks with
  | nil => exact fun _ => ⟨[], rfl⟩
  | cons key ks ih =>
    intro hall
    have hkey := hall key (List.mem_cons_self key ks)
    obtain ⟨rest, hrest⟩ := ih (fun k hk => hall k (List.mem_cons_of_mem key hk))
    cases hg : getExperiment r key with
    | error e =>
      rw [probAt, hg] at hkey
      simp [okOf] at hkey
    | ok exp =>
      cases hl : lookupData exp.data "probabilities" with
      | none =>
        rw [probAt, hg] at hkey
        simp [okOf, hl] at hkey
      | some p =>
        exact ⟨fmt p exp.header :: rest, by simp [probLoop, hg, hl, hrest]⟩

/-- The calibration loop succeeds when every key resolves to a record with
a calibration entry. -/
theorem calLoop_ok_of_all {V H : Type} (r : QIResult V H) :
    ∀ (ks : List Nat), (∀ k ∈ ks, (calAt r k).isSome) →
      ∃ l, calLoop r ks = Except.ok l := by
  intro ks
  induction ks with
  | nil => exact fun _ => ⟨[], rfl⟩
  | cons key ks ih =>
    intro hall
    have hkey := hall key (List.mem_cons_self key ks)
    obtain ⟨rest, hrest⟩ := ih (fun k hk => hall k (List.mem_cons_of_mem key hk))
    cases hg : getExperiment r key with
    | error e =>
      rw [calAt, hg] at hkey
      simp [okOf] at hkey
    | ok exp =>
      cases hl : lookupData exp.data "calibration" with
      | none =>
        rw [calAt, hg] at hkey
        simp [okOf, hl] at hkey
      | some c =>
        exact ⟨c :: rest, by simp [calLoop, hg, hl, hrest]⟩

/-- A successful `get_probabilities` call is the collapse of a successful
loop run. -/
theorem get_probabilities_ok_elim {V H F : Type} (fmt : V → Option H → F) (r : QIResult V H)
    (experiment : Option Nat) (out : AccessorOut F) :
    get_probabilities fmt r experiment = Except.ok out →
    ∃ l, probLoop fmt r (expKeys r experiment) = Except.ok l ∧ out = collapse l := by
  intro h
  rw [get_probabilities] at h
  split at h
  · cases h
  next l hl =>
    cases h
    exact ⟨l, hl, rfl⟩

/-- A successful `get_calibration` call is the collapse of a successful
loop run. -/
theorem get_calibration_ok_elim {V H : Type} (r : QIResult V H)
    (experiment : Option Nat) (out : AccessorOut V) :
    get_calibration r experiment = Except.ok out →
    ∃ l, calLoop r (expKeys r experiment) = Except.ok l ∧ out = collapse l := by
  intro h
  rw [get_calibration] at h
  split at h
  · cases h
  next l hl =>
    cases h
    exact ⟨l, hl, rfl⟩

/-- A successful loop run makes `get_probabilities` return its collapse. -/
theorem get_probabilities_eq_of_loop {V H F : Type} (fmt : V → Option H → F)
    (r : QIResult V H) (experiment : Option Nat) (l : List F)
    (h : probLoop fmt r (expKeys r experiment) = Except.ok l) :
    get_probabilities fmt r experiment = Except.ok (collapse l) := by
  rw [get_probabilities, h]

/-- A successful loop run makes `get_calibration` return its collapse. -/
theorem get_calibration_eq_of_loop {V H : Type} (r : QIResult V H)
    (experiment : Option Nat) (l : List V)
    (h : calLoop r (expKeys r experiment) = Except.ok l) :
    get_calibration r experiment = Except.ok (collapse l) := by
  rw [get_calibration, h]

/-- C1: for both accessors, a successful call returns a single mapping
exactly when one experiment was resolved: an explicit identifier was given,
or `experiment = None` with a store of exactly one record; otherwise it
returns the ordered list. -/
theorem claim_C1 {V H F : Type} (fmt : V → Option H → F) (r : QIResult V H)
    (experiment : Option Nat) :
    (∀ out, get_probabilities fmt r experiment = Except.ok out →
      ((∃ d, out = AccessorOut.single d) ↔ (experiment.isSome ∨ r.results.length = 1))) ∧
    (∀ out, get_calibration r experiment = Except.ok out →
      ((∃ d, out = AccessorOut.single d) ↔ (experiment.isSome ∨ r.results.length = 1))) := by
  constructor
  · intro out hout
    obtain ⟨l, hl, rfl⟩ := get_probabilities_ok_elim fmt r experiment out hout
    have hlen : l.length = (expKeys r experiment).length := probLoop_ok_length fmt r _ l hl
    rw [collapse_single_iff]
    cases experiment with
    | none =>
      simp [expKeys] at hlen
      simp [hlen]
    | some k =>
      simp [expKeys] at hlen
      simp [hlen]
  · intro out hout
    obtain ⟨l, hl, rfl⟩ := get_calibration_ok_elim r experiment out hout
    have hlen : l.length = (expKeys r experiment).length := calLoop_ok_length r _ l hl
    rw [collapse_single_iff]
    cases experiment with
    | none =>
      simp [expKeys] at hlen
      simp [hlen]
    | some k =>
      simp [expKeys] at hlen
      simp [hlen]

/-- Witness for C1 at a concrete input: the explicit identifier 0 on a
one-experiment store yields a single mapping. -/
theorem claim_C1_witness :
    ∃ d, (AccessorOut.single 1 : AccessorOut Nat) = AccessorOut.single d := by
  have h := (claim_C1 sampleFmt store1 (some 0)).1 (AccessorOut.single 1) (by rfl)
  exact h.mpr (Or.inl rfl)

/-- C3: with `experiment = None`, `get_probabilities` iterates all
experiments of the store in store order; on success its list has one
formatted mapping per experiment, in that order. -/
theorem claim_C3 {V H F : Type} (fmt : V → Option H → F) (r : QIResult V H)
    (hall : ∀ e ∈ r.results, (lookupData e.data "probabilities").isSome) :
    ∃ l, get_probabilities fmt r none = Except.ok (collapse l) ∧
      l.length = r.results.length ∧
      ∀ (i : Nat) (h : i < r.results.length),
        l.get? i = (lookupData (r.results.get ⟨i, h⟩).data "probabilities").map
          (fun p => fmt p (r.results.get ⟨i, h⟩).header) := by
  have hallk : ∀ k ∈ expKeys r none, (probAt fmt r k).isSome := by
    intro k hk
    rw [show expKeys r none = List.range r.results.length from rfl, List.mem_range] at hk
    rw [probAt, getExperiment_lt r k hk]
    have := hall (r.results.get ⟨k, hk⟩) (List.get_mem r.results k hk)
    simpa [okOf] using this
  obtain ⟨l, hl⟩ := probLoop_ok_of_all fmt r (expKeys r none) hallk
  refine ⟨l, get_probabilities_eq_of_loop fmt r none l hl, ?_, ?_⟩
  · have := probLoop_ok_length fmt r _ l hl
    simpa [expKeys] using this
  · intro i h
    have hg := probLoop_ok_get fmt r (expKeys r none) l hl i
    rw [hg, show expKeys r none = List.range r.results.length from rfl, List.get?_range h]
    simp [probAt, getExperiment_lt r i h, okOf]

/-- Witness for C3 at a concrete input: a two-experiment store with
probabilities in both records. -/
theorem claim_C3_witness :
    ∃ l, get_probabilities sampleFmt store2 none = Except.ok (collapse l) ∧
      l.length = store2.results.length ∧
      ∀ (i : Nat) (h : i < store2.results.length),
        l.get? i = (lookupData (store2.results.get ⟨i, h⟩).data "probabilities").map
          (fun p => sampleFmt p (store2.results.get ⟨i, h⟩).header) :=
  claim_C3 sampleFmt store2 (by decide)

/-- C4: `get_calibration` returns (or appends to its list) exactly the
stored calibration value, unmodified: an explicit identifier yields the
stored value itself, and with `experiment = None` every list entry is the
raw stored value of the corresponding record. -/
theorem claim_C4 {V H : Type} (r : QIResult V H) :
    (∀ (k : Nat) (h : k < r.results.length) (c : V),
      lookupData (r.results.get ⟨k, h⟩).data "calibration" = some c →
      get_calibration r (some k) = Except.ok (AccessorOut.single c)) ∧
    (∀ out, get_calibration r none = Except.ok out →
      ∃ l, out = collapse l ∧
        ∀ i : Nat, l.get? i = ((expKeys r none).get? i).bind (calAt r)) := by
  constructor
  · intro k h c hc
    have hloop : calLoop r [k] = Except.ok [c] := by
      have hc2 : lookupData r.results[k].data "calibration" = some c := hc
      simp [calLoop, getExperiment_lt r k h, hc2]
    exact get_calibration_eq_of_loop r (some k) [c] hloop
  · intro out hout
    obtain ⟨l, hl, rfl⟩ := get_calibration_ok_elim r none out hout
    exact ⟨l, rfl, fun i => calLoop_ok_get r _ l hl i⟩

/-- Witness for C4 at a concrete input: the stored calibration value 7 of
the single record of `store1` is returned as is. -/
theorem claim_C4_witness :
    get_calibration store1 (some 0) = Except.ok (AccessorOut.single 7) :=
  (claim_C4 store1).1 0 (by decide) 7 (by rfl)

/-- C5: every mapping `get_probabilities` produces is exactly the stored
probabilities value of the resolved record passed, together with its
(possibly absent) decoded header, through the framework formatting routine
(`postprocess.format_counts`, modelled by `fmt`; see `probAt`). -/
theorem claim_C5 {V H F : Type} (fmt : V → Option H → F) (r : QIResult V H)
    (experiment : Option Nat) (out : AccessorOut F)
    (hout : get_probabilities fmt r experiment = Except.ok out) :
    ∃ l, out = collapse l ∧
      ∀ i : Nat, l.get? i = ((expKeys r experiment).get? i).bind (probAt fmt r) := by
  obtain ⟨l, hl, rfl⟩ := get_probabilities_ok_elim fmt r experiment out hout
  exact ⟨l, rfl, fun i => probLoop_ok_get fmt r _ l hl i⟩

/-- Witness for C5 at a concrete input: on `store2` the two produced
mappings are the formatted stored values 301 and 2. -/
theorem claim_C5_witness :
    ∃ l, (AccessorOut.list [301, 2] : AccessorOut Nat) = collapse l ∧
      ∀ i : Nat, l.get? i = ((expKeys store2 none).get? i).bind (probAt sampleFmt store2) :=
  claim_C5 sampleFmt store2 none (AccessorOut.list [301, 2]) (by rfl)

/-- C7: an explicit identifier the store cannot resolve (an out-of-range
index) makes both accessors fail with the error of the experiment
resolver (`QiskitError` from the base Result lookup), not with the
missing-data `QiskitBackendError` of the accessor. -/
theorem claim_C7 {V H F : Type} (fmt : V → Option H → F) (r : QIResult V H) (k : Nat)
    (hk : r.results.length ≤ k) :
    get_probabilities fmt r (some k) = Except.error (QIErr.qiskitError k) ∧
    get_calibration r (some k) = Except.error (QIErr.qiskitError k) := by
  have hnone : r.results.get? k = none := List.get?_eq_none.mpr hk
  have h1 : getExperiment r k = Except.error (QIErr.qiskitError k) := by
    unfold getExperiment
    rw [hnone]
  constructor
  · simp [get_probabilities, expKeys, probLoop, h1]
  · simp [get_calibration, expKeys, calLoop, h1]

/-- Witness for C7 at a concrete input: the empty store, index 0. -/
theorem claim_C7_witness :
    get_probabilities sampleFmt store0 (some 0) = Except.error (QIErr.qiskitError 0) ∧
    get_calibration store0 (some 0) = Except.error (QIErr.qiskitError 0) :=
  claim_C7 sampleFmt store0 0 (Nat.le_refl 0)

/-- If every key before `k` resolves to a record with a probabilities
entry and `k` resolves to a record without one, the probabilities loop
fails with the missing-data error naming `k`. -/
theorem probLoop_append_error {V H F : Type} (fmt : V → Option H → F) (r : QIResult V H)
    (k : Nat) (ks2 : List Nat) (e : ExperimentResult V H)
    (hg : getExperiment r k = Except.ok e)
    (hl : lookupData e.data "probabilities" = none) :
    ∀ ks1 : List Nat, (∀ k2 ∈ ks1, (probAt fmt r k2).isSome) →
      probLoop fmt r (ks1 ++ k :: ks2) =
        Except.error (QIErr.qiskitBackendError (probMissingMsg k)) := by
  intro ks1
  induction ks1 with
  | nil =>
    intro _
    simp [probLoop, hg, hl]
  | cons k2 ks1 ih =>
    intro hall
    have hk2 := hall k2 (List.mem_cons_self k2 ks1)
    have hrest := ih (fun k3 hk3 => hall k3 (List.mem_cons_of_mem k2 hk3))
    cases hg2 : getExperiment r k2 with
    | error e2 =>
      rw [probAt, hg2] at hk2
      simp [okOf] at hk2
    | ok exp2 =>
      cases hl2 : lookupData exp2.data "probabilities" with
      | none =>
        rw [probAt, hg2] at hk2
        simp [okOf, hl2] at hk2
      | some p2 => simp [probLoop, hg2, hl2, hrest]

/-- If every key before `k` resolves to a record with a calibration entry
and `k` resolves to a record without one, the calibration loop fails with
the missing-data error naming `k`. -/
theorem calLoop_append_error {V H : Type} (r : QIResult V H)
    (k : Nat) (ks2 : List Nat) (e : ExperimentResult V H)
    (hg : getExperiment r k = Except.ok e)
    (hl : lookupData e.data "calibration" = none) :
    ∀ ks1 : List Nat, (∀ k2 ∈ ks1, (calAt r k2).isSome) →
      calLoop r (ks1 ++ k :: ks2) =
        Except.error (QIErr.qiskitBackendError (calMissingMsg k)) := by
  intro ks1
  induction ks1 with
  | nil =>
    intro _
    simp [calLoop, hg, hl]
  | cons k2 ks1 ih =>
    intro hall
    have hk2 := hall k2 (List.mem_cons_self k2 ks1)
    have hrest := ih (fun k3 hk3 => hall k3 (List.mem_cons_of_mem k2 hk3))
    cases hg2 : getExperiment r k2 with
    | error e2 =>
      rw [calAt, hg2] at hk2
      simp [okOf] at hk2
    | ok exp2 =>
      cases hl2 : lookupData exp2.data "calibration" with
      | none =>
        rw [calAt, hg2] at hk2
        simp [okOf, hl2] at hk2
      | some c2 => simp [calLoop, hg2, hl2, hrest]

/-- C2: for both accessors, the first resolved experiment whose data
mapping lacks the looked-up key aborts the whole call with
`QiskitBackendError`, whose message names the key kind of the accessor and the
identifier of that experiment; no results of other experiments of the same
call are returned. -/
theorem claim_C2 {V H F : Type} (fmt : V → Option H → F) (r : QIResult V H)
    (experiment : Option Nat) (ks1 ks2 : List Nat) (k : Nat)
    (hsplit : expKeys r experiment = ks1 ++ k :: ks2) :
    ((∀ k2 ∈ ks1, (probAt fmt r k2).isSome) →
      (∃ e, getExperiment r k = Except.ok e ∧ lookupData e.data "probabilities" = none) →
      get_probabilities fmt r experiment =
        Except.error (QIErr.qiskitBackendError (probMissingMsg k))) ∧
    ((∀ k2 ∈ ks1, (calAt r k2).isSome) →
      (∃ e, getExperiment r k = Except.ok e ∧ lookupData e.data "calibration" = none) →
      get_calibration r experiment =
        Except.error (QIErr.qiskitBackendError (calMissingMsg k))) := by
  constructor
  · intro hpre hmiss
    obtain ⟨e, hg, hl⟩ := hmiss
    have hloop := probLoop_append_error fmt r k ks2 e hg hl ks1 hpre
    rw [get_probabilities, hsplit, hloop]
  · intro hpre hmiss
    obtain ⟨e, hg, hl⟩ := hmiss
    have hloop := calLoop_append_error r k ks2 e hg hl ks1 hpre
    rw [get_calibration, hsplit, hloop]

/-- Witness for C2 at a concrete input: on `store2bad` with
`experiment = None`, the second experiment lacks both entries, and both
accessors abort with the error naming experiment 1. -/
theorem claim_C2_witness :
    get_probabilities sampleFmt store2bad none =
      Except.error (QIErr.qiskitBackendError (probMissingMsg 1)) ∧
    get_calibration store2bad none =
      Except.error (QIErr.qiskitBackendError (calMissingMsg 1)) := by
  have h := claim_C2 sampleFmt store2bad none [0] [] 1 (by rfl)
  exact ⟨h.1 (by decide) ⟨ExperimentResult.mk [("other", 2)] none, by rfl, by rfl⟩,
         h.2 (by decide) ⟨ExperimentResult.mk [("other", 2)] none, by rfl, by rfl⟩⟩

/-- Resolving a key on the header-stripped store gives the stripped record
of the same position, with the same error behaviour. -/
theorem getExperiment_strip {V H : Type} (r : QIResult V H) (k : Nat) :
    getExperiment (stripHeaders r) k =
      (getExperiment r k).map (fun e => ExperimentResult.mk e.data none) := by
  cases hk : r.results[k]? with
  | none => simp [getExperiment, stripHeaders, List.getElem?_map, hk, Except.map]
  | some e => simp [getExperiment, stripHeaders, List.getElem?_map, hk, Except.map]

/-- Stripping headers keeps the key lists of the accessors unchanged. -/
theorem expKeys_strip {V H : Type} (r : QIResult V H) (experiment : Option Nat) :
    expKeys (stripHeaders r) experiment = expKeys r experiment := by
  cases experiment <;> simp [expKeys, stripHeaders]

/-- The error of a probabilities loop run is its first missing entry,
independent of formatting and headers. -/
theorem errOf_probLoop {V H F : Type} (fmt : V → Option H → F) (r : QIResult V H) :
    ∀ ks : List Nat, errOf (probLoop fmt r ks) = firstProbError r ks := by
  intro ks
  induction ks with
  | nil => rfl
  | cons key ks ih =>
    cases hg : getExperiment r key with
    | error e => simp [probLoop, firstProbError, hg, errOf]
    | ok exp =>
      cases hl : lookupData exp.data "probabilities" with
      | none => simp [probLoop, firstProbError, hg, hl, errOf]
      | some p =>
        cases hrec : probLoop fmt r ks with
        | error e =>
          rw [hrec] at ih
          simp [probLoop, firstProbError, hg, hl, hrec, errOf, ← ih]
        | ok rest =>
          rw [hrec] at ih
          simp [probLoop, firstProbError, hg, hl, hrec, errOf, ← ih]

/-- The first missing probabilities entry does not change when headers are
stripped. -/
theorem firstProbError_strip {V H : Type} (r : QIResult V H) :
    ∀ ks : List Nat, firstProbError (stripHeaders r) ks = firstProbError r ks := by
  intro ks
  induction ks with
  | nil => rfl
  | cons key ks ih =>
    have hs := getExperiment_strip r key
    cases hg : getExperiment r key with
    | error e =>
      rw [hg] at hs
      simp only [Except.map] at hs
      simp [firstProbError, hg, hs]
    | ok exp =>
      rw [hg] at hs
      simp only [Except.map] at hs
      cases hl : lookupData exp.data "probabilities" with
      | none => simp [firstProbError, hg, hs, hl]
      | some p => simp [firstProbError, hg, hs, hl, ih]

/-- The error of `get_probabilities` is the error of its loop run. -/
theorem errOf_get_probabilities {V H F : Type} (fmt : V → Option H → F) (r : QIResult V H)
    (experiment : Option Nat) :
    errOf (get_probabilities fmt r experiment) =
      errOf (probLoop fmt r (expKeys r experiment)) := by
  rw [get_probabilities]
  cases probLoop fmt r (expKeys r experiment) <;> rfl

/-- C6: header-decoding failures are swallowed by `get_probabilities` and
never surface as errors: the error behaviour of the call is unchanged when every
header decoding is replaced by the failed outcome, and an experiment whose
header decoding failed is formatted with the absent-header value `None`. -/
theorem claim_C6 {V H F : Type} (fmt : V → Option H → F) (r : QIResult V H)
    (experiment : Option Nat) :
    (errOf (get_probabilities fmt r experiment) =
      errOf (get_probabilities fmt (stripHeaders r) experiment)) ∧
    (∀ (k : Nat) (h : k < r.results.length) (p : V),
      (r.results.get ⟨k, h⟩).header = none →
      lookupData (r.results.get ⟨k, h⟩).data "probabilities" = some p →
      get_probabilities fmt r (some k) = Except.ok (AccessorOut.single (fmt p none))) := by
  constructor
  · rw [errOf_get_probabilities, errOf_get_probabilities, errOf_probLoop, errOf_probLoop,
      expKeys_strip, firstProbError_strip]
  · intro k h p hh hp
    have hp2 : lookupData r.results[k].data "probabilities" = some p := hp
    have hh2 : r.results[k].header = none := hh
    have hloop : probLoop fmt r [k] = Except.ok [fmt p none] := by
      simp [probLoop, getExperiment_lt r k h, hp2, hh2]
    exact get_probabilities_eq_of_loop fmt r (some k) [fmt p none] hloop

/-- Witness for C6 at a concrete input: the single record of `store1` has
a failed header decoding, and its probabilities are formatted with the
absent-header value. -/
theorem claim_C6_witness :
    get_probabilities sampleFmt store1 (some 0) =
      Except.ok (AccessorOut.single (sampleFmt 1 none)) :=
  (claim_C6 sampleFmt store1 (some 0)).2 0 (by decide) 1 (by rfl) (by rfl)

/-- The state-threading probabilities loop passes the store through
unchanged and computes the outcome of the plain loop. -/
theorem probLoopST_eq {V H F : Type} (fmt : V → Option H → F) (r : QIResult V H) :
    ∀ ks : List Nat, probLoopST fmt r ks = (r, probLoop fmt r ks) := by
  intro ks
  induction ks with
  | nil => rfl
  | cons key ks ih =>
    cases hg : getExperiment r key with
    | error e => simp [probLoopST, probLoop, hg]
    | ok exp =>
      cases hl : lookupData exp.data "probabilities" with
      | none => simp [probLoopST, probLoop, hg, hl]
      | some p =>
        cases hrec : probLoop fmt r ks with
        | error e => simp [probLoopST, probLoop, hg, hl, hrec, ih]
        | ok rest => simp [probLoopST, probLoop, hg, hl, hrec, ih]

/-- The state-threading calibration loop passes the store through
unchanged and computes the outcome of the plain loop. -/
theorem calLoopST_eq {V H : Type} (r : QIResult V H) :
    ∀ ks : List Nat, calLoopST r ks = (r, calLoop r ks) := by
  intro ks
  induction ks with
  | nil => rfl
  | cons key ks ih =>
    cases hg : getExperiment r key with
    | error e => simp [calLoopST, calLoop, hg]
    | ok exp =>
      cases hl : lookupData exp.data "calibration" with
      | none => simp [calLoopST, calLoop, hg, hl]
      | some c =>
        cases hrec : calLoop r ks with
        | error e => simp [calLoopST, calLoop, hg, hl, hrec, ih]
        | ok rest => simp [calLoopST, calLoop, hg, hl, hrec, ih]

/-- C8: both accessors are pure reads: threading the store state through
every step explicitly, the final state equals the initial state for every
argument, whether the call returns normally or raises, and the computed
outcome is the outcome of the plain accessor. -/
theorem claim_C8 {V H F : Type} (fmt : V → Option H → F) (r : QIResult V H)
    (experiment : Option Nat) :
    (get_probabilitiesST fmt r experiment).1 = r ∧
    (get_calibrationST r experiment).1 = r ∧
    (get_probabilitiesST fmt r experiment).2 = get_probabilities fmt r experiment ∧
    (get_calibrationST r experiment).2 = get_calibration r experiment := by
  have hp : get_probabilitiesST fmt r experiment = (r, get_probabilities fmt r experiment) := by
    rw [get_probabilitiesST, probLoopST_eq, get_probabilities]
    cases probLoop fmt r (expKeys r experiment) <;> rfl
  have hc : get_calibrationST r experiment = (r, get_calibration r experiment) := by
    rw [get_calibrationST, calLoopST_eq, get_calibration]
    cases calLoop r (expKeys r experiment) <;> rfl
  rw [hp, hc]
  exact ⟨rfl, rfl, rfl, rfl⟩

/-- C9: with an empty results collection and `experiment = None`, both
accessors return the empty list: no missing-data error, no singleton
collapse. -/
theorem claim_C9 {V H F : Type} (fmt : V → Option H → F) :
    get_probabilities fmt (QIResult.mk ([] : List (ExperimentResult V H))) none =
      Except.ok (AccessorOut.list []) ∧
    get_calibration (QIResult.mk ([] : List (ExperimentResult V H))) none =
      Except.ok (AccessorOut.list []) :=
  ⟨rfl, rfl⟩

/-- C10: both accessors are deterministic: equal store states and equal
arguments yield equal outcomes, returns and errors alike. -/
theorem claim_C10 {V H F : Type} (fmt : V → Option H → F) (r1 r2 : QIResult V H)
    (e1 e2 : Option Nat) (hr : r1 = r2) (he : e1 = e2) :
    get_probabilities fmt r1 e1 = get_probabilities fmt r2 e2 ∧
    get_calibration r1 e1 = get_calibration r2 e2 := by
  subst hr
  subst he
  exact ⟨rfl, rfl⟩

/-- Witness for C10 at a concrete input: a one-experiment store. -/
theorem claim_C10_witness :
    get_probabilities sampleFmt store1 none = get_probabilities sampleFmt store1 none ∧
    get_calibration store1 none = get_calibration store1 none :=
  claim_C10 sampleFmt store1 store1 none none rfl rfl

end QIRes
